import Mathlib

/-!
Verification development for the daemon utility module
(packages/daemon/src/utils/index.ts) of the pipcook repository.

The module's operations are shallowly embedded as executable Lean
functions: configuration resolution (loadConfig / parseConfig),
directory replication (copyDir), the single-concurrency plugin queue,
and the server-sent-event emitter.  External effects (HTTP fetching,
local file reads) are parameterised by an explicit environment so that
the control flow of the resolver stays exactly the one of the source.
-/

namespace Pipcook

/-! ## Configuration documents -/

/-- One plugin slot of a configuration document: the `package` field may be
absent at runtime (JSON carries no guarantee it is present), and `params`
is an opaque payload, modelled here as an optional serialised string. -/
structure PluginConfig where
  package : Option String
  params : Option String
deriving DecidableEq, Repr

/-- A parsed configuration document (the runtime shape of `RunConfigI`):
a name and a `plugins` object.  The plugins object is an association list
keyed by slot name (JSON object, insertion order), and may itself be
absent at runtime. -/
structure RunConfig where
  name : Option String
  plugins : Option (List (String × PluginConfig))
deriving DecidableEq, Repr

/-- Errors thrown by the resolver.  In the source all three are JavaScript
`TypeError`s distinguished by their message; the spec names the first two
`UnsupportedProtocol` and `InvalidPluginReference`, while `typeError`
stands for a raw runtime `TypeError` escaping from a property access or a
misused standard-library call. -/
inductive LoadError where
  | unsupportedProtocol (protocol : Option String)
  | invalidPluginReference (package : String)
  | typeError (msg : String)
deriving DecidableEq, Repr

/-- I/O actions performed by the resolver, recorded as a trace. -/
inductive IOAction where
  | httpGet (url : String)
  | readFile (path : String)
deriving DecidableEq, Repr

/-- The external world seen by the resolver: the parsed JSON body a GET
of a URL yields, and the parsed JSON content of a local file.  Claims
quantify over all worlds, so fetch results are arbitrary documents. -/
structure World where
  httpGet : String → RunConfig
  readJSON : String → RunConfig

/-- True for the characters Node lets appear in a URI scheme. -/
def isProtocolChar (c : Char) : Bool :=
  c.isAlpha || c.isDigit || c == '.' || c == '+' || c == '-'

/-- Modelled from the spec: the scheme extraction of the standard
`url.parse` used by `loadConfig` (the library itself is not part of this
repository).  A non-empty leading run of scheme characters followed by a
colon yields the lowercased scheme including the colon; otherwise the
protocol is absent, which the spec phrases as no scheme present. -/
def parseProtocol (s : String) : Option String :=
  let cs := s.toList
  let pre := cs.takeWhile isProtocolChar
  if pre.isEmpty then none
  else
    match cs.drop pre.length with
    | ':' :: _ => some (String.mk (pre.map Char.toLower) ++ ":")
    | _ => none

/-- Modelled from the spec: `url.fileURLToPath`, the standard conversion
from a `file:` URI to a local path (not part of this repository); no
claim depends on its exact value, only on the resolver reading the file
it denotes. -/
def fileURLToPath (s : String) : String :=
  String.mk (s.toList.drop 7)

/-- `path.isAbsolute` on a POSIX path: non-empty and starting with a
slash. -/
def isAbsolutePath (p : String) : Bool :=
  p.toList.head? == some '/'

/-- The test applied to every remote plugin package reference:
`path.isAbsolute(pkg) || pkg.startsWith('.')`. -/
def badPackage (pkg : String) : Bool :=
  isAbsolutePath pkg || pkg.toList.head? == some '.'

/-- One iteration of the remote validation loop.  When the `package`
field is absent, `path.isAbsolute(undefined)` throws a raw `TypeError`
before any comparison happens. -/
def checkPlugin (pc : PluginConfig) : Except LoadError Unit :=
  match pc.package with
  | none => .error (.typeError "the path argument must be of type string")
  | some pkg =>
    if badPackage pkg then .error (.invalidPluginReference pkg) else .ok ()

/-- The remote validation loop over the plugins object, in key order;
the first failing slot aborts the loop with its error. -/
def checkPlugins : List (String × PluginConfig) → Except LoadError Unit
  | [] => .ok ()
  | kv :: rest =>
    match checkPlugin kv.2 with
    | .error e => .error e
    | .ok _ => checkPlugins rest

/-- The `for (const key in configJson.plugins)` loop: iterating over an
absent object performs zero iterations, so a missing plugins field
passes validation vacuously. -/
def checkPluginsOpt : Option (List (String × PluginConfig)) → Except LoadError Unit
  | none => .ok ()
  | some ps => checkPlugins ps

/-- The accepted remote schemes, exactly the array tested with
`indexOf` in the source. -/
def httpProtocols : List String := ["http:", "https:"]

/-- `loadConfig` from the source, with its I/O recorded as a trace:
a document argument is returned as is; a string argument is parsed as a
URI, fetched over HTTP(S) and validated, or read as a local `file:` URI
without validation, or rejected with an unsupported-protocol error. -/
def loadConfig (w : World) (configPath : String ⊕ RunConfig) :
    Except LoadError RunConfig × List IOAction :=
  match configPath with
  | .inr cfg => (.ok cfg, [])
  | .inl s =>
    match parseProtocol s with
    | none => (.error (.unsupportedProtocol none), [])
    | some proto =>
      if httpProtocols.contains proto then
        let cfg := w.httpGet s
        match checkPluginsOpt cfg.plugins with
        | .error e => (.error e, [.httpGet s])
        | .ok _ => (.ok cfg, [.httpGet s])
      else if proto == "file:" then
        (.ok (w.readJSON (fileURLToPath s)), [.readFile (fileURLToPath s)])
      else
        (.error (.unsupportedProtocol (some proto)), [])

/-- Modelled from the spec: the `Pipeline` constructor lives in the
models package, which is not part of this fragment; per the spec it is a
flat record with one package/params field pair per plugin slot, holding
exactly the values `parseConfig` passes to it. -/
structure Pipeline where
  name : Option String
  dataCollect : Option String
  dataCollectParams : Option String
  dataAccess : Option String
  dataAccessParams : Option String
  dataProcess : Option String
  dataProcessParams : Option String
  datasetProcess : Option String
  datasetProcessParams : Option String
  modelDefine : Option String
  modelDefineParams : Option String
  modelTrain : Option String
  modelTrainParams : Option String
  modelEvaluate : Option String
  modelEvaluateParams : Option String
deriving DecidableEq, Repr

/-- The JavaScript access `plugins.<slot>?.package` on a present plugins
object: absent slot or absent field give `undefined`. -/
def slotPackage (ps : List (String × PluginConfig)) (k : String) : Option String :=
  (List.lookup k ps).bind PluginConfig.package

/-- The JavaScript access `plugins.<slot>?.params` on a present plugins
object. -/
def slotParams (ps : List (String × PluginConfig)) (k : String) : Option String :=
  (List.lookup k ps).bind PluginConfig.params

/-- `parseConfig` from the source: resolve the document with
`loadConfig`, then copy the seven plugin slots into a `Pipeline`.  The
access `configJson.plugins.dataCollect` on an absent plugins object
throws a raw `TypeError` (reading a property of `undefined`). -/
def parseConfig (w : World) (configPath : String ⊕ RunConfig) :
    Except LoadError Pipeline × List IOAction :=
  let r := loadConfig w configPath
  match r.1 with
  | .error e => (.error e, r.2)
  | .ok cfg =>
    match cfg.plugins with
    | none => (.error (.typeError "cannot read properties of undefined"), r.2)
    | some ps =>
      (.ok {
        name := cfg.name
        dataCollect := slotPackage ps "dataCollect"
        dataCollectParams := slotParams ps "dataCollect"
        dataAccess := slotPackage ps "dataAccess"
        dataAccessParams := slotParams ps "dataAccess"
        dataProcess := slotPackage ps "dataProcess"
        dataProcessParams := slotParams ps "dataProcess"
        datasetProcess := slotPackage ps "datasetProcess"
        datasetProcessParams := slotParams ps "datasetProcess"
        modelDefine := slotPackage ps "modelDefine"
        modelDefineParams := slotParams ps "modelDefine"
        modelTrain := slotPackage ps "modelTrain"
        modelTrainParams := slotParams ps "modelTrain"
        modelEvaluate := slotPackage ps "modelEvaluate"
        modelEvaluateParams := slotParams ps "modelEvaluate" }, r.2)

/-! ## Directory replication (copyDir) -/

mutual
/-- A filesystem subtree as `copyDir` classifies it with `lstat`:
a regular/character/block file with its permission mode and content, a
symbolic link with its verbatim target string, a directory with its
named children, or any other entry kind (socket, FIFO), for which the
source has no branch. -/
inductive FSTree where
  | file (mode : Nat) (content : List Nat)
  | symlink (target : String)
  | dir (children : FSForest)
  | special
deriving Repr

/-- The named children of a directory, in enumeration order. -/
inductive FSForest where
  | nil
  | cons (name : String) (child : FSTree) (rest : FSForest)
deriving Repr
end

mutual
/-- `copyDir` from the source, on the tree the source path denotes:
directories are recreated and their children replicated, files are
byte-copied and re-chmodded to the source mode, symbolic links are
recreated with the verbatim target, and any other entry kind silently
produces no destination entry (`none`). -/
def copyDir : FSTree → Option FSTree
  | .file mode content => some (.file mode content)
  | .symlink target => some (.symlink target)
  | .dir children => some (.dir (copyForest children))
  | .special => none

/-- Child-by-child replication of a directory: a child whose replication
creates no destination entry is simply missing from the destination. -/
def copyForest : FSForest → FSForest
  | .nil => .nil
  | .cons name child rest =>
    match copyDir child with
    | some d => .cons name d (copyForest rest)
    | none => copyForest rest
end

/-- True exactly for the entry kinds `copyDir` has no branch for. -/
def FSTree.isSpecial : FSTree → Bool
  | .special => true
  | _ => false

mutual
/-- The visible part of a tree: the projection to the entry kinds the
replication contract speaks about (directories, files with their modes,
symbolic links with their targets), dropping the other entry kinds. -/
def vis : FSTree → FSTree
  | .file mode content => .file mode content
  | .symlink target => .symlink target
  | .dir children => .dir (visForest children)
  | .special => .special

/-- The visible children of a directory. -/
def visForest : FSForest → FSForest
  | .nil => .nil
  | .cons name child rest =>
    if child.isSpecial then visForest rest
    else .cons name (vis child) (visForest rest)
end

/-! ## The plugin execution queue -/

/-- Modelled from the spec: `pluginQueue` is an instance of the external
queue library with `autostart: true, concurrency: 1`, which is not part
of this repository.  Observable events of the queue: a task is appended,
a task begins executing, a task completes (successfully or not). -/
inductive QEvent (α : Type) where
  | enqueue (t : α)
  | start (t : α)
  | finish (t : α)
deriving DecidableEq, Repr

/-- The queue state: the tasks waiting in order, and the task currently
executing if any. -/
structure QState (α : Type) where
  pending : List α
  running : Option α
deriving DecidableEq, Repr

/-- The initial, empty and idle queue. -/
def QState.init {α : Type} : QState α := ⟨[], none⟩

/-- Modelled from the spec: one observable step of the concurrency-1
autostarting queue.  Enqueuing appends to the tail at any time; a task
starts only when nothing is running and it is the head of the queue;
the running task may complete (success or failure alike). -/
inductive QStep {α : Type} : QState α → QEvent α → QState α → Prop where
  | enqueue (t : α) (p : List α) (r : Option α) :
      QStep ⟨p, r⟩ (.enqueue t) ⟨p ++ [t], r⟩
  | start (t : α) (p : List α) :
      QStep ⟨t :: p, none⟩ (.start t) ⟨p, some t⟩
  | finish (t : α) (p : List α) :
      QStep ⟨p, some t⟩ (.finish t) ⟨p, none⟩

/-- A run of the queue: a trace of events leading from one state to
another. -/
inductive QExec {α : Type} : QState α → List (QEvent α) → QState α → Prop where
  | nil (s : QState α) : QExec s [] s
  | cons {s s2 s3 : QState α} {e : QEvent α} {tr : List (QEvent α)} :
      QStep s e s2 → QExec s2 tr s3 → QExec s (e :: tr) s3

/-- The tasks enqueued along a trace, in order. -/
def enqueuedTasks {α : Type} (tr : List (QEvent α)) : List α :=
  tr.filterMap fun e => match e with | .enqueue t => some t | _ => none

/-- The tasks started along a trace, in order. -/
def startedTasks {α : Type} (tr : List (QEvent α)) : List α :=
  tr.filterMap fun e => match e with | .start t => some t | _ => none

/-- The tasks completed along a trace, in order. -/
def finishedTasks {α : Type} (tr : List (QEvent α)) : List α :=
  tr.filterMap fun e => match e with | .finish t => some t | _ => none

/-- `a` occurs strictly before `b` in the list `l`. -/
def OccursBefore {α : Type} (l : List α) (a b : α) : Prop :=
  ∃ l1 l2 l3, l = l1 ++ a :: l2 ++ b :: l3

/-! ## The server-sent-event emitter -/

/-- One server-sent-event frame: an event name and a payload. -/
structure Frame where
  event : String
  data : String
deriving DecidableEq, Repr

/-- The observable state of a `ServerSentEmitter`: whether its stream is
still piped into the response channel, and the frames the channel has
received so far. -/
structure EmitterState where
  piped : Bool
  channel : List Frame
deriving DecidableEq, Repr

/-- `handle.write` as the channel observes it: while the stream is piped
the frame reaches the channel; after `unpipe` a write no longer reaches
the channel. -/
def writeFrame (s : EmitterState) (event data : String) : EmitterState :=
  if s.piped then { s with channel := s.channel ++ [⟨event, data⟩] } else s

/-- The constructor of `ServerSentEmitter`: pipe the stream into the
response, then emit the `session`/`start` frame. -/
def emitterInit : EmitterState :=
  writeFrame ⟨true, []⟩ "session" "start"

/-- The operations a caller can issue on an emitter. -/
inductive EmitterOp where
  | emit (event data : String)
  | finish
deriving DecidableEq, Repr

/-- One caller operation: `emit` writes a frame; `finish` emits the
`session`/`close` frame and then unpipes the stream from the response. -/
def emitterStep (s : EmitterState) : EmitterOp → EmitterState
  | .emit event data => writeFrame s event data
  | .finish =>
    let s2 := writeFrame s "session" "close"
    { s2 with piped := false }

/-- A whole caller session against one emitter. -/
def emitterRun (s : EmitterState) (ops : List EmitterOp) : EmitterState :=
  ops.foldl emitterStep s

/-! ## Helper lemmas: the remote validation loop -/

/-- One validation iteration only ever throws the invalid-reference
error or the raw type error, never the unsupported-protocol error. -/
theorem checkPlugin_not_unsupported (pc : PluginConfig) (e : LoadError)
    (h : checkPlugin pc = .error e) : ∀ p, e ≠ .unsupportedProtocol p := by
  intro p hne
  subst hne
  unfold checkPlugin at h
  cases hp : pc.package with
  | none => rw [hp] at h; simp at h
  | some pkg =>
    rw [hp] at h
    by_cases hb : badPackage pkg = true
    · simp [hb] at h
    · simp [hb] at h

/-- The validation loop only ever throws the invalid-reference error or
the raw type error, never the unsupported-protocol error. -/
theorem checkPlugins_not_unsupported :
    ∀ (ps : List (String × PluginConfig)) (e : LoadError),
      checkPlugins ps = .error e → ∀ p, e ≠ .unsupportedProtocol p
  | [], e, h => by simp [checkPlugins] at h
  | kv :: rest, e, h => by
    simp only [checkPlugins] at h
    cases hc : checkPlugin kv.2 with
    | error e2 =>
      rw [hc] at h
      injection h with h2
      subst h2
      exact checkPlugin_not_unsupported kv.2 _ hc
    | ok u => rw [hc] at h; exact checkPlugins_not_unsupported rest e h

/-- Also over a possibly absent plugins object. -/
theorem checkPluginsOpt_not_unsupported
    (ps : Option (List (String × PluginConfig))) (e : LoadError)
    (h : checkPluginsOpt ps = .error e) : ∀ p, e ≠ .unsupportedProtocol p := by
  cases ps with
  | none => simp [checkPluginsOpt] at h
  | some l => exact checkPlugins_not_unsupported l e h

/-! ## Claim C4 -/

/-- Claim C4: a configuration source that is already a parsed document is
returned unchanged by loadConfig, with an empty I/O trace. -/
theorem loadConfig_document_identity (w : World) (doc : RunConfig) :
    loadConfig w (.inr doc) = (.ok doc, []) := rfl

/-! ## Claim C5 -/

/-- Claim C5: for a string source, loadConfig fails with
UnsupportedProtocol exactly when the parsed URI has no scheme or a
scheme other than http, https or file; no other failure cause yields
that error. -/
theorem loadConfig_unsupported_protocol_iff (w : World) (s : String) :
    (∃ p, (loadConfig w (.inl s)).1 = .error (.unsupportedProtocol p)) ↔
      (parseProtocol s = none ∨
        ∃ pr, parseProtocol s = some pr ∧ pr ∉ httpProtocols ∧ pr ≠ "file:") := by
  unfold loadConfig
  cases hp : parseProtocol s with
  | none => simp [hp]
  | some pr =>
    simp only [hp]
    by_cases hh : httpProtocols.contains pr = true
    · have hmem : pr ∈ httpProtocols := by
        have := List.elem_iff.mp hh
        exact this
      simp only [hh, if_true]
      constructor
      · rintro ⟨p, hres⟩
        exfalso
        cases hcp : checkPluginsOpt (w.httpGet s).plugins with
        | error e =>
          rw [hcp] at hres
          simp only [] at hres
          cases hres
          exact checkPluginsOpt_not_unsupported _ _ hcp p rfl
        | ok u => rw [hcp] at hres; simp at hres
      · rintro (hnone | ⟨pr2, hpr2, hnotin, hne⟩)
        · simp at hnone
        · cases hpr2
          exact absurd hmem hnotin
    · have hnotmem : pr ∉ httpProtocols := fun hm => hh (List.elem_iff.mpr hm)
      simp only [hh, if_false]
      by_cases hf : pr == "file:"
      · have hfe : pr = "file:" := by exact eq_of_beq hf
        simp only [hf, if_true]
        constructor
        · rintro ⟨p, hres⟩; simp at hres
        · rintro (hnone | ⟨pr2, hpr2, hnotin, hne⟩)
          · simp at hnone
          · cases hpr2; exact absurd hfe hne
      · have hfe : pr ≠ "file:" := fun he => hf (by rw [he]; rfl)
        simp only [hf, if_false]
        constructor
        · intro _; exact Or.inr ⟨pr, rfl, hnotmem, hfe⟩
        · intro _; exact ⟨some pr, rfl⟩

/-- Witness for claim C5: an unrecognised scheme is rejected with the
unsupported-protocol error. -/
theorem loadConfig_unsupported_protocol_iff_witness :
    ∃ p, (loadConfig ⟨fun _ => ⟨none, none⟩, fun _ => ⟨none, none⟩⟩
        (.inl "ftp://example.com/c.json")).1 = .error (.unsupportedProtocol p) :=
  (loadConfig_unsupported_protocol_iff ⟨fun _ => ⟨none, none⟩, fun _ => ⟨none, none⟩⟩
      "ftp://example.com/c.json").mpr
    (Or.inr ⟨"ftp:", by rfl, by decide, by decide⟩)

/-! ## Claim C6 -/

/-- Claim C6: a file-scheme source is read and parsed directly, with no
package-reference validation: whatever document the file holds —
including one whose plugin slots carry relative or absolute path
references — is returned successfully. -/
theorem loadConfig_file_no_validation (w : World) (s : String)
    (hp : parseProtocol s = some "file:") :
    loadConfig w (.inl s) =
      (.ok (w.readJSON (fileURLToPath s)), [.readFile (fileURLToPath s)]) := by
  simp [loadConfig, hp, httpProtocols]

/-- A local document whose only plugin slot holds a relative path
reference. -/
def docLocalRelative : RunConfig :=
  ⟨some "local", some [("dataCollect", ⟨some "../local/plugin", some "p"⟩)]⟩

/-- A world whose local file reads all yield the relative-reference
document. -/
def wLocal : World :=
  ⟨fun _ => ⟨none, none⟩, fun _ => docLocalRelative⟩

/-- Witness for claim C6: a concrete file URI denoting a document with a
relative package reference resolves successfully to that document. -/
theorem loadConfig_file_no_validation_witness :
    loadConfig wLocal (.inl "file:///tmp/pipeline.json") =
      (.ok (wLocal.readJSON (fileURLToPath "file:///tmp/pipeline.json")),
        [.readFile (fileURLToPath "file:///tmp/pipeline.json")]) :=
  loadConfig_file_no_validation wLocal "file:///tmp/pipeline.json" (by rfl)

/-! ## Claim C9 -/

/-- Claim C9: a remote document with no plugins field at all passes the
validation loop vacuously and is returned by loadConfig, but parseConfig
then throws a raw TypeError dereferencing the absent plugins object. -/
theorem loadConfig_missing_plugins_accepted (w : World) (s proto : String)
    (hp : parseProtocol s = some proto) (hh : proto ∈ httpProtocols)
    (hnil : (w.httpGet s).plugins = none) :
    (loadConfig w (.inl s)).1 = .ok (w.httpGet s) ∧
      ∃ m, (parseConfig w (.inl s)).1 = .error (.typeError m) := by
  have hc : httpProtocols.contains proto = true := List.elem_iff.mpr hh
  have hload : (loadConfig w (.inl s)).1 = .ok (w.httpGet s) := by
    simp [loadConfig, hp, hc, hh, checkPluginsOpt, hnil]
  exact ⟨hload, "cannot read properties of undefined",
    by simp [parseConfig, hload, hnil]⟩

/-- A remote document with no plugins object at all. -/
def docNoPlugins : RunConfig := ⟨some "demo", none⟩

/-- A world whose remote fetches yield the plugins-less document. -/
def wNoPlugins : World := ⟨fun _ => docNoPlugins, fun _ => docNoPlugins⟩

/-- Witness for claim C9 at a concrete remote source. -/
theorem loadConfig_missing_plugins_accepted_witness :
    (loadConfig wNoPlugins (.inl "http://example.com/c.json")).1 =
        .ok (wNoPlugins.httpGet "http://example.com/c.json") ∧
      ∃ m, (parseConfig wNoPlugins (.inl "http://example.com/c.json")).1 =
        .error (.typeError m) :=
  loadConfig_missing_plugins_accepted wNoPlugins "http://example.com/c.json" "http:"
    (by rfl) (by decide) (by rfl)

/-! ## Claim C1 -/

/-- A remote document whose first slot lacks its package field and whose
second slot carries a relative path reference. -/
def docMixedBad : RunConfig :=
  ⟨some "demo", some [("dataCollect", ⟨none, none⟩),
    ("modelTrain", ⟨some "../local/evil", none⟩)]⟩

/-- A world whose remote fetches yield that mixed document. -/
def wMixedBad : World := ⟨fun _ => docMixedBad, fun _ => docMixedBad⟩

/-- Claim C1 counterexample: this remote document does contain a plugin
slot whose package reference starts with a dot, yet loadConfig fails
with the raw TypeError thrown by `path.isAbsolute(undefined)` on the
earlier package-less slot, not with InvalidPluginReference. -/
theorem loadConfig_remote_invalid_ref_cex :
    (("modelTrain", (⟨some "../local/evil", none⟩ : PluginConfig)) ∈
        docMixedBad.plugins.getD [] ∧ badPackage "../local/evil" = true) ∧
    (loadConfig wMixedBad (.inl "http://example.com/config.json")).1 =
      .error (.typeError "the path argument must be of type string") ∧
    (loadConfig wMixedBad (.inl "http://example.com/config.json")).1 ≠
      .error (.invalidPluginReference "../local/evil") := by
  refine ⟨by decide, rfl, ?_⟩
  intro h
  rw [show (loadConfig wMixedBad (.inl "http://example.com/config.json")).1 =
    .error (.typeError "the path argument must be of type string") from rfl] at h
  simp at h

/-- If every slot carries a package string and some slot carries an
invalid one, the validation loop stops at an invalid slot and names its
package. -/
theorem checkPlugins_finds_bad :
    ∀ (ps : List (String × PluginConfig)),
      (∀ kv ∈ ps, (kv.2).package.isSome = true) →
      (∃ kv ∈ ps, ∃ pkg, kv.2.package = some pkg ∧ badPackage pkg = true) →
      ∃ kv ∈ ps, ∃ pkg, kv.2.package = some pkg ∧ badPackage pkg = true ∧
        checkPlugins ps = .error (.invalidPluginReference pkg)
  | [], _, hbad => by simp at hbad
  | kv0 :: rest, hall, hbad => by
    obtain ⟨pkg0, hpkg0⟩ :=
      Option.isSome_iff_exists.mp (hall kv0 (List.mem_cons_self _ _))
    by_cases hb : badPackage pkg0 = true
    · exact ⟨kv0, List.mem_cons_self _ _, pkg0, hpkg0, hb,
        by simp [checkPlugins, checkPlugin, hpkg0, hb]⟩
    · rw [Bool.not_eq_true] at hb
      have hrest : ∃ kv ∈ rest, ∃ pkg, kv.2.package = some pkg ∧
          badPackage pkg = true := by
        obtain ⟨kv, hkv, pkg, hpkg, hbad2⟩ := hbad
        rcases List.mem_cons.mp hkv with heq | hkvr
        · subst heq
          rw [hpkg0] at hpkg
          injection hpkg with h2
          subst h2
          rw [hb] at hbad2
          exact absurd hbad2 (by simp)
        · exact ⟨kv, hkvr, pkg, hpkg, hbad2⟩
      obtain ⟨kv, hkv, pkg, hpkg, hbad2, hcheck⟩ :=
        checkPlugins_finds_bad rest (fun kv h => hall kv (List.mem_cons_of_mem _ h))
          hrest
      exact ⟨kv, List.mem_cons_of_mem _ hkv, pkg, hpkg, hbad2,
        by simp [checkPlugins, checkPlugin, hpkg0, hb, hcheck]⟩

/-- Claim C1 as amended: over remote documents every slot of which
carries a package string, if some slot carries an absolute or
dot-leading reference then loadConfig fails with
InvalidPluginReference naming the package string of an offending slot,
before any document is returned. -/
theorem loadConfig_remote_invalid_ref (w : World) (s proto : String)
    (ps : List (String × PluginConfig))
    (hp : parseProtocol s = some proto) (hh : proto ∈ httpProtocols)
    (hps : (w.httpGet s).plugins = some ps)
    (hall : ∀ kv ∈ ps, (kv.2).package.isSome = true)
    (hbad : ∃ kv ∈ ps, ∃ pkg, kv.2.package = some pkg ∧ badPackage pkg = true) :
    ∃ kv ∈ ps, ∃ pkg, kv.2.package = some pkg ∧ badPackage pkg = true ∧
      (loadConfig w (.inl s)).1 = .error (.invalidPluginReference pkg) := by
  have hc : httpProtocols.contains proto = true := List.elem_iff.mpr hh
  obtain ⟨kv, hkv, pkg, hpkg, hb, hcheck⟩ := checkPlugins_finds_bad ps hall hbad
  exact ⟨kv, hkv, pkg, hpkg, hb,
    by simp [loadConfig, hp, hc, hh, checkPluginsOpt, hps, hcheck]⟩

/-- A remote document whose single slot carries a relative path. -/
def docRemoteBad : RunConfig :=
  ⟨some "demo", some [("modelTrain", ⟨some "../local/evil", none⟩)]⟩

/-- A world whose remote fetches yield that document. -/
def wRemoteBad : World := ⟨fun _ => docRemoteBad, fun _ => docRemoteBad⟩

/-- Witness for the amended claim C1 at a concrete remote source. -/
theorem loadConfig_remote_invalid_ref_witness :
    ∃ kv ∈ [("modelTrain", (⟨some "../local/evil", none⟩ : PluginConfig))], ∃ pkg,
      kv.2.package = some pkg ∧ badPackage pkg = true ∧
      (loadConfig wRemoteBad (.inl "https://example.com/config.json")).1 =
        .error (.invalidPluginReference pkg) :=
  loadConfig_remote_invalid_ref wRemoteBad "https://example.com/config.json" "https:"
    [("modelTrain", ⟨some "../local/evil", none⟩)] (by rfl) (by decide) (by rfl)
    (by decide)
    ⟨("modelTrain", ⟨some "../local/evil", none⟩), by decide, "../local/evil", rfl,
      by decide⟩

/-! ## Claim C10 -/

/-- A remote document with an invalid reference before a package-less
slot. -/
def docBadThenMissing : RunConfig :=
  ⟨some "demo", some [("dataCollect", ⟨some "../evil", none⟩),
    ("modelTrain", ⟨none, none⟩)]⟩

/-- A world whose remote fetches yield that document. -/
def wBadThenMissing : World := ⟨fun _ => docBadThenMissing, fun _ => docBadThenMissing⟩

/-- Claim C10 counterexample: this remote document does contain a plugin
slot whose package field is absent, yet loadConfig fails with
InvalidPluginReference for the earlier invalid slot, not with a raw
TypeError. -/
theorem loadConfig_missing_package_cex :
    (("modelTrain", (⟨none, none⟩ : PluginConfig)) ∈
        docBadThenMissing.plugins.getD [] ∧
      (⟨none, none⟩ : PluginConfig).package = none) ∧
    (loadConfig wBadThenMissing (.inl "http://example.com/config.json")).1 =
      .error (.invalidPluginReference "../evil") ∧
    (loadConfig wBadThenMissing (.inl "http://example.com/config.json")).1 ≠
      .error (.typeError "the path argument must be of type string") := by
  refine ⟨by decide, rfl, ?_⟩
  intro h
  rw [show (loadConfig wBadThenMissing (.inl "http://example.com/config.json")).1 =
    .error (.invalidPluginReference "../evil") from rfl] at h
  simp at h

/-- Validation walks past slots whose package strings are valid. -/
theorem checkPlugins_skips_valid :
    ∀ (pre tail : List (String × PluginConfig)),
      (∀ e ∈ pre, ∃ pkg, e.2.package = some pkg ∧ badPackage pkg = false) →
      checkPlugins (pre ++ tail) = checkPlugins tail
  | [], tail, _ => rfl
  | e0 :: pre, tail, hpre => by
    obtain ⟨pkg0, hpkg0, hb⟩ := hpre e0 (List.mem_cons_self _ _)
    have ih := checkPlugins_skips_valid pre tail
      (fun e h => hpre e (List.mem_cons_of_mem _ h))
    simp [checkPlugins, checkPlugin, hpkg0, hb, ih]

/-- Claim C10 as amended: if a remote document has a slot whose package
field is absent and every slot before it carries a valid package
string, the validation loop throws the raw TypeError of
`path.isAbsolute(undefined)`, not InvalidPluginReference and not
UnsupportedProtocol. -/
theorem loadConfig_missing_package (w : World) (s proto : String)
    (pre rest : List (String × PluginConfig)) (kv : String × PluginConfig)
    (hp : parseProtocol s = some proto) (hh : proto ∈ httpProtocols)
    (hps : (w.httpGet s).plugins = some (pre ++ kv :: rest))
    (hnone : kv.2.package = none)
    (hpre : ∀ e ∈ pre, ∃ pkg, e.2.package = some pkg ∧ badPackage pkg = false) :
    (loadConfig w (.inl s)).1 =
        .error (.typeError "the path argument must be of type string") ∧
      (∀ pkg, (loadConfig w (.inl s)).1 ≠ .error (.invalidPluginReference pkg)) ∧
      ∀ p, (loadConfig w (.inl s)).1 ≠ .error (.unsupportedProtocol p) := by
  have hc : httpProtocols.contains proto = true := List.elem_iff.mpr hh
  have hcheck : checkPlugins (pre ++ kv :: rest) =
      .error (.typeError "the path argument must be of type string") := by
    rw [checkPlugins_skips_valid pre _ hpre]
    simp [checkPlugins, checkPlugin, hnone]
  have hres : (loadConfig w (.inl s)).1 =
      .error (.typeError "the path argument must be of type string") := by
    simp [loadConfig, hp, hc, hh, checkPluginsOpt, hps, hcheck]
  refine ⟨hres, ?_, ?_⟩ <;> intro x h <;> rw [hres] at h <;> simp at h

/-- A remote document with one valid slot followed by a package-less
slot. -/
def docValidThenMissing : RunConfig :=
  ⟨some "demo", some [("dataCollect", ⟨some "@scope/collector", none⟩),
    ("modelTrain", ⟨none, none⟩)]⟩

/-- A world whose remote fetches yield that document. -/
def wValidThenMissing : World :=
  ⟨fun _ => docValidThenMissing, fun _ => docValidThenMissing⟩

/-- Witness for the amended claim C10 at a concrete remote source. -/
theorem loadConfig_missing_package_witness :
    (loadConfig wValidThenMissing (.inl "http://example.com/config.json")).1 =
        .error (.typeError "the path argument must be of type string") ∧
      (∀ pkg, (loadConfig wValidThenMissing (.inl "http://example.com/config.json")).1 ≠
        .error (.invalidPluginReference pkg)) ∧
      ∀ p, (loadConfig wValidThenMissing (.inl "http://example.com/config.json")).1 ≠
        .error (.unsupportedProtocol p) :=
  loadConfig_missing_package wValidThenMissing "http://example.com/config.json" "http:"
    [("dataCollect", ⟨some "@scope/collector", none⟩)] [] ("modelTrain", ⟨none, none⟩)
    (by rfl) (by decide) (by rfl) (by rfl)
    (by
      intro e he
      simp only [List.mem_singleton] at he
      subst he
      exact ⟨"@scope/collector", rfl, by decide⟩)

/-! ## Claim C3 -/

/-- The seven plugin slot names. -/
def slotNames : List String :=
  ["dataCollect", "dataAccess", "dataProcess", "datasetProcess",
    "modelDefine", "modelTrain", "modelEvaluate"]

/-- The package field of a pipeline definition for a given slot name. -/
def Pipeline.slotOf (pl : Pipeline) : String → Option String
  | "dataCollect" => pl.dataCollect
  | "dataAccess" => pl.dataAccess
  | "dataProcess" => pl.dataProcess
  | "datasetProcess" => pl.datasetProcess
  | "modelDefine" => pl.modelDefine
  | "modelTrain" => pl.modelTrain
  | "modelEvaluate" => pl.modelEvaluate
  | _ => none

/-- The params field of a pipeline definition for a given slot name. -/
def Pipeline.slotParamsOf (pl : Pipeline) : String → Option String
  | "dataCollect" => pl.dataCollectParams
  | "dataAccess" => pl.dataAccessParams
  | "dataProcess" => pl.dataProcessParams
  | "datasetProcess" => pl.datasetProcessParams
  | "modelDefine" => pl.modelDefineParams
  | "modelTrain" => pl.modelTrainParams
  | "modelEvaluate" => pl.modelEvaluateParams
  | _ => none

/-- Claim C3 counterexample: a resolved document with no plugins object
has every slot absent, yet parseConfig fails with a raw TypeError
instead of mapping the slots to undefined — so the mapping step is not
error-free over all resolved documents. -/
theorem parseConfig_pipeline_mapping_cex :
    (parseConfig wNoPlugins (.inr ⟨some "broken", none⟩)).1 =
        .error (.typeError "cannot read properties of undefined") ∧
      (parseConfig wNoPlugins (.inr ⟨some "broken", none⟩)).1 ≠
        .ok ⟨some "broken", none, none, none, none, none, none, none, none,
          none, none, none, none, none, none⟩ := by
  refine ⟨rfl, ?_⟩
  intro h
  rw [show (parseConfig wNoPlugins (.inr ⟨some "broken", none⟩)).1 =
    .error (.typeError "cannot read properties of undefined") from rfl] at h
  simp at h

/-- Claim C3 as amended: over resolved documents whose plugins object is
present, parseConfig maps the seven slot names independently and never
fails: each slot present in the document contributes its package and
params pair, each absent slot contributes undefined in both fields. -/
theorem parseConfig_pipeline_mapping (w : World) (nm : Option String)
    (ps : List (String × PluginConfig)) :
    ∃ pl, (parseConfig w (.inr ⟨nm, some ps⟩)).1 = .ok pl ∧
      ∀ k ∈ slotNames,
        (List.lookup k ps = none →
          pl.slotOf k = none ∧ pl.slotParamsOf k = none) ∧
        ∀ pc, List.lookup k ps = some pc →
          pl.slotOf k = pc.package ∧ pl.slotParamsOf k = pc.params := by
  refine ⟨_, rfl, ?_⟩
  intro k hk
  simp only [slotNames, List.mem_cons, List.not_mem_nil, or_false] at hk
  rcases hk with rfl | rfl | rfl | rfl | rfl | rfl | rfl <;>
    exact ⟨fun h => by simp [Pipeline.slotOf, Pipeline.slotParamsOf,
        slotPackage, slotParams, h],
      fun pc h => by simp [Pipeline.slotOf, Pipeline.slotParamsOf,
        slotPackage, slotParams, h]⟩

/-- The plugins object of the spec example: only dataCollect and
modelTrain populated. -/
def psTwoSlots : List (String × PluginConfig) :=
  [("dataCollect", ⟨some "@scope/collector", some "url-x"⟩),
    ("modelTrain", ⟨some "@scope/trainer", none⟩)]

/-- Witness for the amended claim C3 at the two-slot document. -/
theorem parseConfig_pipeline_mapping_witness :
    ∃ pl, (parseConfig wNoPlugins (.inr ⟨some "demo", some psTwoSlots⟩)).1 = .ok pl ∧
      ∀ k ∈ slotNames,
        (List.lookup k psTwoSlots = none →
          pl.slotOf k = none ∧ pl.slotParamsOf k = none) ∧
        ∀ pc, List.lookup k psTwoSlots = some pc →
          pl.slotOf k = pc.package ∧ pl.slotParamsOf k = pc.params :=
  parseConfig_pipeline_mapping wNoPlugins (some "demo") psTwoSlots

/-! ## Claim C2 -/

/-- Projecting keeps the constructor of every kept entry. -/
theorem vis_isSpecial (t : FSTree) (h : t.isSpecial = false) :
    (vis t).isSpecial = false := by
  cases t with
  | file mode content => rfl
  | symlink target => rfl
  | dir children => rfl
  | special => simp [FSTree.isSpecial] at h

mutual
/-- Replicating a non-special entry creates exactly its visible
projection: same entry kinds, same file modes and contents, same link
targets, special descendants dropped. -/
theorem copyDir_eq_vis : (t : FSTree) → t.isSpecial = false → copyDir t = some (vis t)
  | .file mode content, _ => rfl
  | .symlink target, _ => rfl
  | .dir children, _ => by
    rw [copyDir, vis, copyForest_eq_visForest children]
  | .special, h => by simp [FSTree.isSpecial] at h

/-- Replicating the children of a directory yields their visible
projection. -/
theorem copyForest_eq_visForest : (f : FSForest) → copyForest f = visForest f
  | .nil => rfl
  | .cons name child rest => by
    cases child with
    | special =>
      rw [copyForest, visForest]
      simp [copyDir, FSTree.isSpecial, copyForest_eq_visForest rest]
    | file mode content =>
      rw [copyForest, visForest]
      simp [copyDir, vis, FSTree.isSpecial, copyForest_eq_visForest rest]
    | symlink target =>
      rw [copyForest, visForest]
      simp [copyDir, vis, FSTree.isSpecial, copyForest_eq_visForest rest]
    | dir children =>
      rw [copyForest, visForest]
      simp [copyDir_eq_vis (.dir children) rfl, FSTree.isSpecial,
        copyForest_eq_visForest rest]
end

mutual
/-- The visible projection is idempotent on non-special entries. -/
theorem vis_vis : (t : FSTree) → t.isSpecial = false → vis (vis t) = vis t
  | .file mode content, _ => rfl
  | .symlink target, _ => rfl
  | .dir children, _ => by rw [vis, vis, visForest_visForest children]
  | .special, h => by simp [FSTree.isSpecial] at h

/-- The visible projection of children is idempotent. -/
theorem visForest_visForest : (f : FSForest) → visForest (visForest f) = visForest f
  | .nil => rfl
  | .cons name child rest => by
    cases hc : child.isSpecial with
    | true =>
      cases child with
      | special => simp [visForest, FSTree.isSpecial, visForest_visForest rest]
      | file mode content => simp [FSTree.isSpecial] at hc
      | symlink target => simp [FSTree.isSpecial] at hc
      | dir children => simp [FSTree.isSpecial] at hc
    | false =>
      rw [visForest]
      rw [if_neg (by simp [hc])]
      rw [visForest]
      rw [if_neg (by simp [vis_isSpecial child hc])]
      rw [vis_vis child hc, visForest_visForest rest]
end

/-- Claim C2: replicating a directory tree and then replicating the
replica yields a tree identical to the original in entry types
(directory, file, symbolic link), file permission modes and contents,
and symbolic-link target strings — that is, equal visible projections;
entries of other kinds are outside the replication contract. -/
theorem copyDir_replication_idempotent (f : FSForest) (d1 d2 : FSTree)
    (h1 : copyDir (.dir f) = some d1) (h2 : copyDir d1 = some d2) :
    vis d2 = vis (.dir f) := by
  rw [copyDir_eq_vis (.dir f) rfl] at h1
  injection h1 with h1
  subst h1
  have hns : (vis (.dir f)).isSpecial = false := rfl
  rw [copyDir_eq_vis _ hns] at h2
  injection h2 with h2
  subst h2
  rw [vis_vis _ hns, vis_vis (.dir f) rfl]

/-- A sample tree with a file, a symbolic link, a FIFO-like special
entry and an empty subdirectory. -/
def sampleForest : FSForest :=
  .cons "a.bin" (.file 420 [1, 2, 3])
    (.cons "link" (.symlink "../target")
      (.cons "fifo" .special
        (.cons "sub" (.dir .nil) .nil)))

/-- The replica of the sample tree: the special entry is gone, all else
is unchanged. -/
def sampleCopied : FSTree :=
  .dir (.cons "a.bin" (.file 420 [1, 2, 3])
    (.cons "link" (.symlink "../target")
      (.cons "sub" (.dir .nil) .nil)))

/-- Witness for claim C2 on the sample tree. -/
theorem copyDir_replication_idempotent_witness :
    vis sampleCopied = vis (.dir sampleForest) :=
  copyDir_replication_idempotent sampleForest sampleCopied sampleCopied
    (by rfl) (by rfl)

/-! ## Helper lemmas: queue traces -/

theorem enqueuedTasks_append {α : Type} (u v : List (QEvent α)) :
    enqueuedTasks (u ++ v) = enqueuedTasks u ++ enqueuedTasks v := by
  simp [enqueuedTasks]

theorem startedTasks_append {α : Type} (u v : List (QEvent α)) :
    startedTasks (u ++ v) = startedTasks u ++ startedTasks v := by
  simp [startedTasks]

theorem finishedTasks_append {α : Type} (u v : List (QEvent α)) :
    finishedTasks (u ++ v) = finishedTasks u ++ finishedTasks v := by
  simp [finishedTasks]

theorem enqueuedTasks_single_enqueue {α : Type} (t : α) :
    enqueuedTasks [QEvent.enqueue t] = [t] := rfl

theorem enqueuedTasks_single_start {α : Type} (t : α) :
    enqueuedTasks [QEvent.start t] = [] := rfl

theorem enqueuedTasks_single_finish {α : Type} (t : α) :
    enqueuedTasks [QEvent.finish t] = [] := rfl

theorem startedTasks_single_enqueue {α : Type} (t : α) :
    startedTasks [QEvent.enqueue t] = [] := rfl

theorem startedTasks_single_start {α : Type} (t : α) :
    startedTasks [QEvent.start t] = [t] := rfl

theorem startedTasks_single_finish {α : Type} (t : α) :
    startedTasks [QEvent.finish t] = [] := rfl

theorem finishedTasks_single_enqueue {α : Type} (t : α) :
    finishedTasks [QEvent.enqueue t] = [] := rfl

theorem finishedTasks_single_start {α : Type} (t : α) :
    finishedTasks [QEvent.start t] = [] := rfl

theorem finishedTasks_single_finish {α : Type} (t : α) :
    finishedTasks [QEvent.finish t] = [t] := rfl

/-- The queue invariant: the enqueued tasks are exactly the started ones
followed by the pending ones, and the completed tasks are the started
ones except for the currently running task, if any. -/
def QInv {α : Type} (tr : List (QEvent α)) (s : QState α) : Prop :=
  enqueuedTasks tr = startedTasks tr ++ s.pending ∧
    ((s.running = none ∧ finishedTasks tr = startedTasks tr) ∨
      ∃ t, s.running = some t ∧ startedTasks tr = finishedTasks tr ++ [t])

theorem qinv_nil {α : Type} : QInv ([] : List (QEvent α)) QState.init :=
  ⟨rfl, Or.inl ⟨rfl, rfl⟩⟩

theorem qinv_step {α : Type} {tr : List (QEvent α)} {s s2 : QState α} {e : QEvent α}
    (hinv : QInv tr s) (hstep : QStep s e s2) : QInv (tr ++ [e]) s2 := by
  obtain ⟨h1, h2⟩ := hinv
  cases hstep with
  | enqueue t p r =>
    refine ⟨?_, ?_⟩
    · rw [enqueuedTasks_append, startedTasks_append,
        enqueuedTasks_single_enqueue, startedTasks_single_enqueue,
        List.append_nil]
      rw [show (⟨p, r⟩ : QState α).pending = p from rfl] at h1
      rw [h1, List.append_assoc]
    · rw [startedTasks_append, finishedTasks_append,
        startedTasks_single_enqueue, finishedTasks_single_enqueue,
        List.append_nil, List.append_nil]
      exact h2
  | start t p =>
    have hfs : finishedTasks tr = startedTasks tr := by
      rcases h2 with ⟨_, hfs⟩ | ⟨t2, hsome, _⟩
      · exact hfs
      · exact absurd hsome (by simp)
    refine ⟨?_, Or.inr ⟨t, rfl, ?_⟩⟩
    · rw [enqueuedTasks_append, startedTasks_append,
        enqueuedTasks_single_start, startedTasks_single_start,
        List.append_nil]
      rw [show (⟨t :: p, none⟩ : QState α).pending = t :: p from rfl] at h1
      rw [h1, List.append_assoc]
      rfl
    · rw [startedTasks_append, finishedTasks_append,
        startedTasks_single_start, finishedTasks_single_start,
        List.append_nil, hfs]
  | finish t p =>
    have hx : ∃ t2, (⟨p, some t⟩ : QState α).running = some t2 ∧
        startedTasks tr = finishedTasks tr ++ [t2] := by
      rcases h2 with ⟨hn, _⟩ | hx
      · exact absurd hn (by simp)
      · exact hx
    obtain ⟨t2, hsome, hst⟩ := hx
    have ht : t2 = t := by
      rw [show (⟨p, some t⟩ : QState α).running = some t from rfl] at hsome
      injection hsome with h3
      exact h3.symm
    subst ht
    refine ⟨?_, Or.inl ⟨rfl, ?_⟩⟩
    · rw [enqueuedTasks_append, startedTasks_append,
        enqueuedTasks_single_finish, startedTasks_single_finish,
        List.append_nil, List.append_nil]
      exact h1
    · rw [startedTasks_append, finishedTasks_append,
        startedTasks_single_finish, finishedTasks_single_finish,
        List.append_nil, hst]

theorem qinv_exec {α : Type} {s s2 : QState α} {tr : List (QEvent α)}
    (hexec : QExec s tr s2) :
    ∀ acc, QInv acc s → QInv (acc ++ tr) s2 := by
  induction hexec with
  | nil s => intro acc h; simpa using h
  | cons hstep hrest ih =>
    intro acc h
    have h3 := ih (acc ++ [_]) (qinv_step h hstep)
    rw [List.append_assoc] at h3
    simpa using h3

theorem qinv_of_exec {α : Type} {tr : List (QEvent α)} {s : QState α}
    (h : QExec QState.init tr s) : QInv tr s := by
  have h2 := qinv_exec h [] qinv_nil
  simpa using h2

theorem qexec_append {α : Type} :
    ∀ (u : List (QEvent α)) {v : List (QEvent α)} {s s2 : QState α},
      QExec s (u ++ v) s2 → ∃ sm, QExec s u sm ∧ QExec sm v s2
  | [], v, s, s2, h => ⟨s, QExec.nil s, h⟩
  | e :: u, v, s, s2, h => by
    cases h with
    | cons hstep hrest =>
      obtain ⟨sm, hu2, hv2⟩ := qexec_append u hrest
      exact ⟨sm, QExec.cons hstep hu2, hv2⟩

theorem occursBefore_split {α : Type} :
    ∀ (l1 p q l2 l3 : List α) (a b : α),
      p ++ b :: q = l1 ++ a :: (l2 ++ b :: l3) → b ∉ p → b ∉ q → a ∈ p
  | [], p, q, l2, l3, a, b, heq, hp, hq => by
    cases p with
    | nil =>
      injection heq with h1 h2
      exact absurd (by rw [h2]; simp : b ∈ q) hq
    | cons x p2 =>
      injection heq with h1 h2
      subst h1
      exact List.mem_cons_self _ _
  | y :: l1, p, q, l2, l3, a, b, heq, hp, hq => by
    cases p with
    | nil =>
      injection heq with h1 h2
      exact absurd (by rw [h2]; simp : b ∈ q) hq
    | cons x p2 =>
      injection heq with h1 h2
      have hrec := occursBefore_split l1 p2 q l2 l3 a b h2
        (fun hm => hp (List.mem_cons_of_mem _ hm)) hq
      exact List.mem_cons_of_mem _ hrec

theorem occursBefore_before_mid {α : Type} {p q : List α} {a b : α}
    (h : OccursBefore (p ++ b :: q) a b) (hp : b ∉ p) (hq : b ∉ q) : a ∈ p := by
  obtain ⟨l1, l2, l3, heq⟩ := h
  rw [List.append_assoc] at heq
  exact occursBefore_split l1 p q l2 l3 a b heq hp hq

theorem start_mem_of_mem_startedTasks {α : Type} {u : List (QEvent α)} {a : α}
    (h : a ∈ startedTasks u) : QEvent.start a ∈ u := by
  obtain ⟨e, he, hfe⟩ := List.mem_filterMap.mp h
  cases e with
  | enqueue t => simp at hfe
  | finish t => simp at hfe
  | start t =>
    simp only [Option.some.injEq] at hfe
    subst hfe
    exact he

theorem finish_mem_of_mem_finishedTasks {α : Type} {u : List (QEvent α)} {a : α}
    (h : a ∈ finishedTasks u) : QEvent.finish a ∈ u := by
  obtain ⟨e, he, hfe⟩ := List.mem_filterMap.mp h
  cases e with
  | enqueue t => simp at hfe
  | start t => simp at hfe
  | finish t =>
    simp only [Option.some.injEq] at hfe
    subst hfe
    exact he

/-! ## Claim C7 -/

/-- Claim C7 (queue behaviour modelled from the spec): along every run
of the concurrency-1 autostarting queue, (i) tasks begin executing in
exactly their enqueue order — the started sequence is a prefix of the
enqueued sequence; (ii) at every point at most one task body has begun
but not completed; (iii) whenever a task starts, every previously
started task has completed; (iv) for distinct tasks, if a was enqueued
before b, then by the time b starts, a has already started and
completed. -/
theorem pluginQueue_fifo_serial {α : Type} (tr : List (QEvent α)) (sf : QState α)
    (hexec : QExec QState.init tr sf) :
    (∃ waiting, enqueuedTasks tr = startedTasks tr ++ waiting) ∧
    (∀ u v, tr = u ++ v →
      (startedTasks u).length ≤ (finishedTasks u).length + 1) ∧
    (∀ u b v, tr = u ++ QEvent.start b :: v →
      finishedTasks u = startedTasks u) ∧
    (∀ u b v a, tr = u ++ QEvent.start b :: v → (enqueuedTasks tr).Nodup →
      OccursBefore (enqueuedTasks tr) a b →
      QEvent.start a ∈ u ∧ QEvent.finish a ∈ u) := by
  refine ⟨?_, ?_, ?_, ?_⟩
  · obtain ⟨h1, _⟩ := qinv_of_exec hexec
    exact ⟨sf.pending, h1⟩
  · intro u v huv
    subst huv
    obtain ⟨sm, hu, _⟩ := qexec_append u hexec
    obtain ⟨_, h2⟩ := qinv_of_exec hu
    rcases h2 with ⟨_, hfs⟩ | ⟨t, _, hst⟩
    · rw [hfs]
      exact Nat.le_succ _
    · rw [hst]
      simp
  · intro u b v huv
    subst huv
    obtain ⟨sm, hu, hrest⟩ := qexec_append u hexec
    cases hrest with
    | cons hstep hrest2 =>
      cases hstep with
      | start _ p =>
        obtain ⟨_, h2⟩ := qinv_of_exec hu
        rcases h2 with ⟨_, hfs⟩ | ⟨t2, hsome, _⟩
        · exact hfs
        · exact absurd hsome (by simp)
  · intro u b v a huv hnodup hbefore
    subst huv
    obtain ⟨sm, hu, hrest⟩ := qexec_append u hexec
    cases hrest with
    | cons hstep hrest2 =>
      cases hstep with
      | start _ p =>
        obtain ⟨h1, h2⟩ := qinv_of_exec hu
        have hfs : finishedTasks u = startedTasks u := by
          rcases h2 with ⟨_, hfs⟩ | ⟨t2, hsome, _⟩
          · exact hfs
          · exact absurd hsome (by simp)
        rw [show (⟨b :: p, none⟩ : QState α).pending = b :: p from rfl] at h1
        have henq : enqueuedTasks (u ++ QEvent.start b :: v)
            = startedTasks u ++ b :: (p ++ enqueuedTasks v) := by
          rw [show (QEvent.start b :: v : List (QEvent α))
              = [QEvent.start b] ++ v from rfl,
            enqueuedTasks_append, enqueuedTasks_append,
            enqueuedTasks_single_start, List.nil_append, h1,
            List.append_assoc]
          rfl
        rw [henq] at hnodup hbefore
        obtain ⟨_, hnd2, hdisj⟩ := List.nodup_append.mp hnodup
        have hnotin1 : b ∉ startedTasks u :=
          fun hb => hdisj hb (List.mem_cons_self _ _)
        have hnotin2 : b ∉ p ++ enqueuedTasks v :=
          (List.nodup_cons.mp hnd2).1
        have hmem : a ∈ startedTasks u :=
          occursBefore_before_mid hbefore hnotin1 hnotin2
        refine ⟨start_mem_of_mem_startedTasks hmem,
          finish_mem_of_mem_finishedTasks ?_⟩
        rw [hfs]
        exact hmem

/-- A concrete run of the queue: two tasks enqueued, then executed one
after the other. -/
def sampleTrace : List (QEvent Nat) :=
  [.enqueue 0, .enqueue 1, .start 0, .finish 0, .start 1, .finish 1]

/-- Witness for claim C7 on the concrete run. -/
theorem pluginQueue_fifo_serial_witness :
    (∃ waiting, enqueuedTasks sampleTrace = startedTasks sampleTrace ++ waiting) ∧
    (∀ u v, sampleTrace = u ++ v →
      (startedTasks u).length ≤ (finishedTasks u).length + 1) ∧
    (∀ u b v, sampleTrace = u ++ QEvent.start b :: v →
      finishedTasks u = startedTasks u) ∧
    (∀ u b v a, sampleTrace = u ++ QEvent.start b :: v →
      (enqueuedTasks sampleTrace).Nodup →
      OccursBefore (enqueuedTasks sampleTrace) a b →
      QEvent.start a ∈ u ∧ QEvent.finish a ∈ u) :=
  pluginQueue_fifo_serial sampleTrace ⟨[], none⟩
    (QExec.cons (QStep.enqueue 0 [] none)
      (QExec.cons (QStep.enqueue 1 [0] none)
        (QExec.cons (QStep.start 0 [1])
          (QExec.cons (QStep.finish 0 [1])
            (QExec.cons (QStep.start 1 [])
              (QExec.cons (QStep.finish 1 []) (QExec.nil _)))))))

/-! ## Helper lemmas: the emitter -/

theorem writeFrame_piped (s : EmitterState) (e d : String) :
    (writeFrame s e d).piped = s.piped := by
  unfold writeFrame
  split <;> rfl

theorem writeFrame_channel_of_piped (s : EmitterState) (e d : String)
    (h : s.piped = true) :
    (writeFrame s e d).channel = s.channel ++ [⟨e, d⟩] := by
  simp [writeFrame, h]

theorem emitterRun_cons (s : EmitterState) (op : EmitterOp) (ops : List EmitterOp) :
    emitterRun s (op :: ops) = emitterRun (emitterStep s op) ops := rfl

theorem emitterRun_unpiped :
    ∀ (ops : List EmitterOp) (s : EmitterState), s.piped = false →
      emitterRun s ops = s
  | [], s, _ => rfl
  | op :: ops, s, h => by
    obtain ⟨piped, channel⟩ := s
    simp only at h
    subst h
    cases op with
    | emit e d =>
      rw [emitterRun_cons]
      have hs : emitterStep ⟨false, channel⟩ (.emit e d) = ⟨false, channel⟩ := by
        simp [emitterStep, writeFrame]
      rw [hs]
      exact emitterRun_unpiped ops _ rfl
    | finish =>
      rw [emitterRun_cons]
      have hs : emitterStep ⟨false, channel⟩ .finish = ⟨false, channel⟩ := by
        simp [emitterStep, writeFrame]
      rw [hs]
      exact emitterRun_unpiped ops _ rfl

theorem emitterStep_channel_extends (s : EmitterState) (op : EmitterOp) :
    ∃ d0, (emitterStep s op).channel = s.channel ++ d0 := by
  cases op with
  | emit e d =>
    cases hs : s.piped with
    | true => exact ⟨[⟨e, d⟩], by simp [emitterStep, writeFrame, hs]⟩
    | false => exact ⟨[], by simp [emitterStep, writeFrame, hs]⟩
  | finish =>
    cases hs : s.piped with
    | true => exact ⟨[⟨"session", "close"⟩], by simp [emitterStep, writeFrame, hs]⟩
    | false => exact ⟨[], by simp [emitterStep, writeFrame, hs]⟩

theorem emitterRun_channel_extends :
    ∀ (ops : List EmitterOp) (s : EmitterState),
      ∃ extra, (emitterRun s ops).channel = s.channel ++ extra
  | [], s => ⟨[], by simp [emitterRun]⟩
  | op :: ops, s => by
    obtain ⟨extra, hch⟩ := emitterRun_channel_extends ops (emitterStep s op)
    obtain ⟨d0, hd0⟩ := emitterStep_channel_extends s op
    exact ⟨d0 ++ extra, by
      rw [emitterRun_cons, hch, hd0, List.append_assoc]⟩

theorem emitterRun_piped_no_finish :
    ∀ (ops : List EmitterOp), EmitterOp.finish ∉ ops →
      ∀ s : EmitterState, s.piped = true →
        (emitterRun s ops).piped = true ∧
          ∃ extra, (emitterRun s ops).channel = s.channel ++ extra
  | [], _, s, h => ⟨h, [], by simp [emitterRun]⟩
  | op :: ops, hnf, s, h => by
    cases op with
    | finish => exact absurd (List.mem_cons_self _ _) hnf
    | emit e d =>
      have hnf2 : EmitterOp.finish ∉ ops :=
        fun hm => hnf (List.mem_cons_of_mem _ hm)
      have hp2 : (writeFrame s e d).piped = true := by
        rw [writeFrame_piped]; exact h
      obtain ⟨hpip, extra, hch⟩ :=
        emitterRun_piped_no_finish ops hnf2 (writeFrame s e d) hp2
      refine ⟨hpip, [⟨e, d⟩] ++ extra, ?_⟩
      rw [emitterRun_cons]
      rw [show emitterStep s (.emit e d) = writeFrame s e d from rfl]
      rw [hch, writeFrame_channel_of_piped s e d h, List.append_assoc]

/-! ## Claim C8 -/

/-- Claim C8: every frame sequence an emitter writes to its channel
begins with the session/start frame emitted at construction, before any
caller-issued frame; and once the caller first calls finish, the
session/close frame is written and nothing the caller does afterwards
adds any further frame to the channel — the close frame stays the
channel's last frame. -/
theorem serverSentEmitter_frames (pre post : List EmitterOp)
    (hpre : EmitterOp.finish ∉ pre) :
    (∀ ops : List EmitterOp, ∃ rest,
      (emitterRun emitterInit ops).channel = ⟨"session", "start"⟩ :: rest) ∧
    (emitterRun emitterInit (pre ++ EmitterOp.finish :: post)).channel
      = (emitterRun emitterInit (pre ++ [EmitterOp.finish])).channel ∧
    ∃ mid, (emitterRun emitterInit (pre ++ [EmitterOp.finish])).channel
      = ⟨"session", "start"⟩ :: (mid ++ [⟨"session", "close"⟩]) := by
  have hinitp : emitterInit.piped = true := rfl
  have hinitc : emitterInit.channel = [⟨"session", "start"⟩] := rfl
  obtain ⟨hp1, extra1, hc1⟩ :=
    emitterRun_piped_no_finish pre hpre emitterInit hinitp
  have hfin : emitterRun emitterInit (pre ++ [EmitterOp.finish])
      = emitterStep (emitterRun emitterInit pre) .finish := by
    rw [show emitterRun emitterInit (pre ++ [EmitterOp.finish])
      = emitterRun (emitterRun emitterInit pre) [EmitterOp.finish] from
      List.foldl_append _ _ _ _]
    rfl
  refine ⟨?_, ?_, ?_⟩
  · intro ops
    obtain ⟨extra, hch⟩ := emitterRun_channel_extends ops emitterInit
    rw [hinitc] at hch
    exact ⟨extra, hch⟩
  · rw [show pre ++ EmitterOp.finish :: post
      = (pre ++ [EmitterOp.finish]) ++ post by simp]
    rw [show emitterRun emitterInit ((pre ++ [EmitterOp.finish]) ++ post)
      = emitterRun (emitterRun emitterInit (pre ++ [EmitterOp.finish])) post from
      List.foldl_append _ _ _ _]
    have hunp : (emitterRun emitterInit (pre ++ [EmitterOp.finish])).piped = false := by
      rw [hfin]
      rfl
    rw [emitterRun_unpiped post _ hunp]
  · refine ⟨extra1, ?_⟩
    rw [hfin]
    rw [show emitterStep (emitterRun emitterInit pre) .finish
      = { writeFrame (emitterRun emitterInit pre) "session" "close"
          with piped := false } from rfl]
    simp only []
    rw [writeFrame_channel_of_piped _ _ _ hp1, hc1, hinitc]
    simp

/-- Witness for claim C8: one caller emit, then finish, then a late
emit and a second finish that add nothing to the channel. -/
theorem serverSentEmitter_frames_witness :
    (∀ ops : List EmitterOp, ∃ rest,
      (emitterRun emitterInit ops).channel = ⟨"session", "start"⟩ :: rest) ∧
    (emitterRun emitterInit ([.emit "log" "x"] ++ EmitterOp.finish
        :: [.emit "late" "y", .finish])).channel
      = (emitterRun emitterInit ([.emit "log" "x"] ++ [EmitterOp.finish])).channel ∧
    ∃ mid, (emitterRun emitterInit ([.emit "log" "x"] ++ [EmitterOp.finish])).channel
      = ⟨"session", "start"⟩ :: (mid ++ [⟨"session", "close"⟩]) :=
  serverSentEmitter_frames [.emit "log" "x"] [.emit "late" "y", .finish] (by decide)

end Pipcook
